import Mathlib

/-!
Shallow embedding of the LLM resilience client of `node-finance-bot-api`:
the data model (`src/ai/llm/types.ts`), the response cache
(`src/ai/llm/cache.ts`, shipped inside the genkit provider source blob),
the orchestrating client (`src/ai/llm/client.ts`), the two concrete
providers (`src/ai/llm/providers/genkit.ts`, `src/ai/llm/providers/openrouter.ts`),
and the JSON post-processing of the consuming extraction flow.

Modelling conventions:
* `Date.now()` is an explicit `Nat` parameter (milliseconds).
* JavaScript numbers are `ℚ` (temperature) or `Nat` (timestamps, counters).
* A JS `Map` is an insertion-ordered association list; `Map.set` on an
  existing key updates the value in place, otherwise it appends.
* In-place mutation of the caller's `options.models` array
  (`Array.prototype.sort`) is made explicit: cache operations return the
  caller-visible `options` and `messages` values as they stand after the call.
* Exceptions are `Except`; the closed class hierarchy of provider errors is a
  structure carrying its class tag (`instanceof` is a tag comparison).
-/

/-- Message role, from `LLMMessage.role` in `src/ai/llm/types.ts`. -/
inductive Role where
  | system
  | user
  | assistant
deriving DecidableEq, Repr

/-- JSON name of a role, as serialized by `JSON.stringify`. -/
def Role.toStr : Role → String
  | .system => "system"
  | .user => "user"
  | .assistant => "assistant"

/-- `LLMMessage` from `src/ai/llm/types.ts`. -/
structure LLMMessage where
  role : Role
  content : String
deriving DecidableEq, Repr

/-- `LLMCallOptions` from `src/ai/llm/types.ts`; every field is optional. -/
structure LLMCallOptions where
  temperature : Option ℚ := none
  maxTokens : Option Nat := none
  models : Option (List String) := none
  timeout : Option Nat := none
deriving DecidableEq, Repr

/-- `LLMResponseMetadata` from `src/ai/llm/types.ts`. -/
structure LLMResponseMetadata where
  provider : String
  model : Option String := none
  tokens : Option Nat := none
  duration : Option Nat := none
  cached : Option Bool := none
deriving DecidableEq, Repr

/-- `LLMResponse` from `src/ai/llm/types.ts`. -/
structure LLMResponse where
  content : String
  metadata : LLMResponseMetadata
deriving DecidableEq, Repr

/-- Class tag of a provider error: the error class hierarchy of
`src/ai/llm/types.ts` is closed, so `instanceof` amounts to comparing
this tag (`base` is `LLMProviderError` itself). -/
inductive ErrClass where
  | base
  | timeoutClass
  | quota
  | invalidResponse
  | auth
deriving DecidableEq, Repr

/-- `LLMProviderError` and its subclasses from `src/ai/llm/types.ts`, as one
record: `cls` is the concrete class, `retryAfter` is populated only by the
`LLMQuotaExceededError` constructor. -/
structure LLMProviderError where
  cls : ErrClass
  message : String
  provider : String
  code : Option String := none
  statusCode : Option Nat := none
  retryAfter : Option Nat := none
deriving DecidableEq, Repr

/-- The `LLMProviderError` base-class constructor. -/
def mkProviderError (message provider : String) (code : Option String := none)
    (statusCode : Option Nat := none) : LLMProviderError :=
  { cls := .base, message := message, provider := provider, code := code,
    statusCode := statusCode }

/-- The `LLMTimeoutError` constructor (`code = 'TIMEOUT'`, message prefixed
with the timeout value). -/
def mkTimeoutError (message provider : String) (timeout : Nat) : LLMProviderError :=
  { cls := .timeoutClass,
    message := "Request timed out after " ++ toString timeout ++ "ms: " ++ message,
    provider := provider, code := some "TIMEOUT" }

/-- The `LLMQuotaExceededError` constructor (`code = 'QUOTA_EXCEEDED'`,
`statusCode = 429`, optional `retryAfter`). -/
def mkQuotaExceededError (message provider : String) (retryAfter : Option Nat) :
    LLMProviderError :=
  { cls := .quota, message := message, provider := provider,
    code := some "QUOTA_EXCEEDED", statusCode := some 429, retryAfter := retryAfter }

/-- The `LLMInvalidResponseError` constructor (`code = 'INVALID_RESPONSE'`). -/
def mkInvalidResponseError (message provider : String) : LLMProviderError :=
  { cls := .invalidResponse, message := message, provider := provider,
    code := some "INVALID_RESPONSE" }

/-- The `LLMAuthenticationError` constructor (`code = 'AUTHENTICATION_FAILED'`,
`statusCode = 401`). -/
def mkAuthenticationError (message provider : String) : LLMProviderError :=
  { cls := .auth, message := message, provider := provider,
    code := some "AUTHENTICATION_FAILED", statusCode := some 401 }

/-! ### String helpers

JavaScript string primitives used by the source, modelled on `List Char`
so that everything reduces in the kernel. -/

/-- Whitespace as recognized by `String.prototype.trim` and the `\s`
character class (restricted to the four common whitespace characters). -/
def wsChar (c : Char) : Bool := c = ' ' || c = '\n' || c = '\t' || c = '\r'

/-- Strip leading and trailing whitespace from a character list
(`String.prototype.trim`). -/
def trimChars (l : List Char) : List Char :=
  ((l.dropWhile wsChar).reverse.dropWhile wsChar).reverse

/-- Split a character list at the first occurrence of `pat`, returning the
part before the occurrence and the part after it. -/
def splitFirst (pat : List Char) : List Char → Option (List Char × List Char)
  | [] => if pat.isPrefixOf ([] : List Char) then some ([], []) else none
  | c :: rest =>
    if pat.isPrefixOf (c :: rest) then some ([], (c :: rest).drop pat.length)
    else (splitFirst pat rest).map (fun p => (c :: p.1, p.2))

/-- `haystack.includes(needle)` for strings. -/
def occursIn (pat l : List Char) : Bool := (splitFirst pat l).isSome

/-- `String.prototype.includes` on whole strings. -/
def containsSub (hay pat : String) : Bool := occursIn pat.toList hay.toList

/-- Lexicographic comparison of character lists by code point, the order
`Array.prototype.sort`'s default comparator induces on strings. -/
def lexLe : List Char → List Char → Bool
  | [], _ => true
  | _ :: _, [] => false
  | a :: as, b :: bs =>
    if a.toNat < b.toNat then true
    else if b.toNat < a.toNat then false
    else lexLe as bs

/-- String comparison used by the default-comparator `sort()` call. -/
def strLeB (a b : String) : Bool := lexLe a.toList b.toList

/-- Propositional form of `strLeB`. -/
def strLeP (a b : String) : Prop := strLeB a b = true

instance : DecidableRel strLeP := fun a b => by unfold strLeP; infer_instance

/-- Result of `options.models.sort()`: the same multiset in the default sort
order. Any sorting algorithm yields this list because the order is total and
antisymmetric on strings. -/
def jsSortStrings (l : List String) : List String := List.insertionSort strLeP l

/-! ### Cache (`src/ai/llm/cache.ts`) -/

/-- `CacheConfig` from `src/ai/llm/cache.ts`. -/
structure CacheConfig where
  enabled : Bool
  ttl : Nat
  maxSize : Nat
deriving DecidableEq, Repr

/-- `Partial<CacheConfig>` as merged by `LLMCache.updateConfig`. -/
structure CachePatch where
  enabled : Option Bool := none
  ttl : Option Nat := none
  maxSize : Option Nat := none
deriving DecidableEq, Repr

/-- `CacheEntry` from `src/ai/llm/cache.ts`. -/
structure CacheEntry where
  response : LLMResponse
  expiresAt : Nat
  accessCount : Nat
  lastAccessed : Nat
deriving DecidableEq, Repr

/-- The canonical content hashed by `LLMCache.generateKey`: the cache key is
`sha256(JSON.stringify(content))`. `JSON.stringify` is injective on this
record shape (field set and order are fixed, `undefined` fields are dropped,
mirrored here by `Option`) and SHA-256 is modelled as collision-free, so the
key is modelled by the canonical record itself. -/
structure CacheKeyContent where
  messages : List (String × String)
  temperature : Option ℚ
  maxTokens : Option Nat
  models : Option (List String)
deriving DecidableEq, Repr

/-- `LLMCache.generateKey`: role/content projection of the messages plus the
normalized options; `options?.models?.sort()` sorts the model list (and, in
the source, does so in place on the caller's array). -/
def generateKey (messages : List LLMMessage) (options : Option LLMCallOptions) :
    CacheKeyContent :=
  { messages := messages.map (fun m => (m.role.toStr, m.content)),
    temperature := options.bind (·.temperature),
    maxTokens := options.bind (·.maxTokens),
    models := (options.bind (·.models)).map jsSortStrings }

/-- The caller's `options` value after `generateKey` ran: `sort()` mutated
`options.models` in place. -/
def optionsAfterKeyGen (options : Option LLMCallOptions) : Option LLMCallOptions :=
  options.map (fun o => { o with models := o.models.map jsSortStrings })

/-- Insertion-ordered association-list model of the JS `Map` holding the
cache entries. -/
abbrev EntryMap := List (CacheKeyContent × CacheEntry)

/-- `Map.get`. -/
def mapGet : EntryMap → CacheKeyContent → Option CacheEntry
  | [], _ => none
  | (k0, v) :: rest, k => if k0 = k then some v else mapGet rest k

/-- `Map.set`: update in place if the key exists, otherwise append. -/
def mapSet : EntryMap → CacheKeyContent → CacheEntry → EntryMap
  | [], k, v => [(k, v)]
  | (k0, v0) :: rest, k, v =>
    if k0 = k then (k, v) :: rest else (k0, v0) :: mapSet rest k v

/-- `Map.delete`. -/
def mapDelete (m : EntryMap) (k : CacheKeyContent) : EntryMap :=
  m.filter (fun p => decide (p.1 ≠ k))

namespace LLMCache

/-- Mutable state of an `LLMCache` instance: the entry map, the current
configuration and the hit/miss counters. -/
structure State where
  entries : EntryMap
  config : CacheConfig
  hits : Nat
  misses : Nat
deriving DecidableEq, Repr

/-- A freshly constructed `LLMCache`. -/
def initState (config : CacheConfig) : State :=
  { entries := [], config := config, hits := 0, misses := 0 }

/-- `LLMCache.isExpired`. -/
def isExpired (now : Nat) (entry : CacheEntry) : Bool := now > entry.expiresAt

/-- `LLMCache.cleanupExpired`: drop every entry with `now > expiresAt`. -/
def cleanupExpired (now : Nat) (m : EntryMap) : EntryMap :=
  m.filter (fun p => decide (¬ now > p.2.expiresAt))

/-- The scan inside `LLMCache.evictLRU`: starting from `oldestTime =
Date.now()` and `oldestKey = null`, remember the key of each entry whose
`lastAccessed` is strictly below the best so far. -/
def findOldest (now : Nat) (m : EntryMap) : Option CacheKeyContent :=
  (m.foldl
    (fun acc p => if p.2.lastAccessed < acc.2 then (some p.1, p.2.lastAccessed) else acc)
    ((none : Option CacheKeyContent), now)).1

/-- `LLMCache.evictLRU`: no-op below capacity, otherwise delete the entry
found by the scan (none, when no entry is strictly older than `now`). -/
def evictLRU (now : Nat) (maxSize : Nat) (m : EntryMap) : EntryMap :=
  if m.length < maxSize then m
  else
    match findOldest now m with
    | some k => mapDelete m k
    | none => m

/-- Result of `LLMCache.get`, including the caller-visible arguments after
the call (the source sorts `options.models` in place while computing the
key; the messages array is only read). -/
structure GetResult where
  value : Option LLMResponse
  state : State
  callerOptions : Option LLMCallOptions
  callerMessages : List LLMMessage
deriving Repr

/-- `LLMCache.get`: miss when disabled (before any key computation), absent
or expired — an expired entry is deleted; a hit bumps the access statistics
and returns a copy of the stored response with `cached := true`. -/
def get (now : Nat) (messages : List LLMMessage) (options : Option LLMCallOptions)
    (s : State) : GetResult :=
  if ¬ s.config.enabled then
    { value := none, state := s, callerOptions := options, callerMessages := messages }
  else
    let key := generateKey messages options
    let options' := optionsAfterKeyGen options
    match mapGet s.entries key with
    | none =>
      { value := none, state := { s with misses := s.misses + 1 },
        callerOptions := options', callerMessages := messages }
    | some entry =>
      if isExpired now entry then
        { value := none,
          state := { s with entries := mapDelete s.entries key, misses := s.misses + 1 },
          callerOptions := options', callerMessages := messages }
      else
        let entry' := { entry with accessCount := entry.accessCount + 1,
                                   lastAccessed := now }
        { value := some { entry.response with
            metadata := { entry.response.metadata with cached := some true } },
          state := { s with entries := mapSet s.entries key entry',
                            hits := s.hits + 1 },
          callerOptions := options', callerMessages := messages }

/-- Result of `LLMCache.set`, again with the caller-visible arguments after
the call. -/
structure SetResult where
  state : State
  callerOptions : Option LLMCallOptions
  callerMessages : List LLMMessage
deriving Repr

/-- `LLMCache.set`: no-op when disabled; otherwise sweep expired entries,
evict once if at capacity, then store the response with `cached := false`
under the generated key. -/
def set (now : Nat) (messages : List LLMMessage) (options : Option LLMCallOptions)
    (response : LLMResponse) (s : State) : SetResult :=
  if ¬ s.config.enabled then
    { state := s, callerOptions := options, callerMessages := messages }
  else
    let m1 := cleanupExpired now s.entries
    let m2 := evictLRU now s.config.maxSize m1
    let key := generateKey messages options
    let entry : CacheEntry :=
      { response := { response with
          metadata := { response.metadata with cached := some false } },
        expiresAt := now + s.config.ttl, accessCount := 0, lastAccessed := now }
    { state := { s with entries := mapSet m2 key entry },
      callerOptions := optionsAfterKeyGen options, callerMessages := messages }

/-- `LLMCache.clear`. -/
def clear (s : State) : State :=
  { s with entries := [], hits := 0, misses := 0 }

/-- `LLMCache.updateConfig`: spread-merge of the partial configuration, then
a full `clear` if caching ended up disabled. -/
def updateConfig (patch : CachePatch) (s : State) : State :=
  let cfg : CacheConfig :=
    { enabled := patch.enabled.getD s.config.enabled,
      ttl := patch.ttl.getD s.config.ttl,
      maxSize := patch.maxSize.getD s.config.maxSize }
  let s' := { s with config := cfg }
  if ¬ cfg.enabled then clear s' else s'

end LLMCache

/-! ### Client orchestrator (`src/ai/llm/client.ts`) -/

/-- A provider as the orchestrator sees it: a name plus the outcome of
`provider.call` on each attempt of the current `call` invocation (the
conversation and options are fixed for the duration of one invocation, so
the attempt number is the only varying input). -/
structure Provider where
  name : String
  behavior : Nat → Except LLMProviderError LLMResponse

/-- Outcome of `callProviderWithRetries`: a response, a thrown
`LLMProviderError`, or the `throw lastError!` of a null `lastError`
(reachable only when `maxRetries = 0`, where the loop body never runs). -/
inductive RetryOutcome where
  | ok (r : LLMResponse)
  | err (e : LLMProviderError)
  | nullThrow
deriving DecidableEq, Repr

/-- The retry loop of `LLMClient.callProviderWithRetries`, unrolled on fuel
(`fuel = maxRetries - attempt + 1` at every call). Returns the outcome and
the number of `provider.call` invocations performed. On a thrown error with
code `AUTHENTICATION_FAILED` or `QUOTA_EXCEEDED` the loop breaks at once;
otherwise it retries until `attempt = maxRetries` and rethrows the last
error. -/
def retriesGo (p : Provider) (maxRetries : Nat) : Nat → Nat → RetryOutcome × Nat
  | 0, _ => (.nullThrow, 0)
  | fuel + 1, attempt =>
    if attempt > maxRetries then (.nullThrow, 0)
    else
      match p.behavior attempt with
      | .ok r => (.ok r, 1)
      | .error e =>
        if e.code = some "AUTHENTICATION_FAILED" ∨ e.code = some "QUOTA_EXCEEDED" then
          (.err e, 1)
        else if attempt = maxRetries then (.err e, 1)
        else
          let rest := retriesGo p maxRetries fuel (attempt + 1)
          (rest.1, rest.2 + 1)

/-- `LLMClient.callProviderWithRetries`: attempts run from 1 to
`maxRetries`. -/
def callProviderWithRetries (p : Provider) (maxRetries : Nat) : RetryOutcome × Nat :=
  retriesGo p maxRetries maxRetries 1

/-- The wrapper the client applies to a non-`LLMProviderError` throw:
`new LLMProviderError('Unknown error: ' + String(error), name)`; for the
null throw of an empty retry loop, `String(null)` is `"null"`. -/
def wrapNullError (providerName : String) : LLMProviderError :=
  mkProviderError ("Unknown error: null") providerName

/-- What `LLMClient.call` can produce: a response, or the single terminal
`LLMAllProvidersFailedError` carrying one recorded error per failed
provider. `singleError` is the shape a directly escaping provider error
would have; the translated `call` below never constructs it. -/
inductive CallResult where
  | ok (r : LLMResponse)
  | allFailed (errors : List LLMProviderError)
  | singleError (e : LLMProviderError)
deriving DecidableEq, Repr

/-- The provider loop of `LLMClient.call`: try each provider in order,
recording each terminal failure; the first success wins, and exhaustion
yields `LLMAllProvidersFailedError` over the recorded errors in attempt
order. -/
def tryProviders (maxRetries : Nat) : List Provider → List LLMProviderError → CallResult
  | [], errors => .allFailed errors
  | p :: rest, errors =>
    match (callProviderWithRetries p maxRetries).1 with
    | .ok r => .ok r
    | .err e => tryProviders maxRetries rest (errors ++ [e])
    | .nullThrow => tryProviders maxRetries rest (errors ++ [wrapNullError p.name])

/-- The error recorded for a provider whose retries were exhausted: the last
thrown `LLMProviderError`, or the wrapped null throw. (`.ok` cannot be
recorded; the branch is arbitrary.) -/
def recordedError (p : Provider) (maxRetries : Nat) : LLMProviderError :=
  match (callProviderWithRetries p maxRetries).1 with
  | .err e => e
  | _ => wrapNullError p.name

/-- `LLMClient.initializeProviders`: genkit always comes first; the
OpenRouter fallback is appended only when fallback is enabled and a
non-empty API key is configured. -/
def initProviders (fallbackEnabled : Bool) (openRouterApiKey : Option String)
    (genkit openrouter : Provider) : List Provider :=
  if fallbackEnabled then
    match openRouterApiKey with
    | some k => if k = "" then [genkit] else [genkit, openrouter]
    | none => [genkit]
  else [genkit]

namespace LLMClient

/-- `LLMClient.call`: check the cache first; on a miss run the provider
loop, caching a successful response under the original conversation and the
(by now in-place-sorted) options. -/
def call (providers : List Provider) (maxRetries : Nat) (now : Nat)
    (messages : List LLMMessage) (options : Option LLMCallOptions)
    (s : LLMCache.State) : CallResult × LLMCache.State :=
  let g := LLMCache.get now messages options s
  match g.value with
  | some r => (.ok r, g.state)
  | none =>
    match tryProviders maxRetries providers [] with
    | .ok r => (.ok r, (LLMCache.set now messages g.callerOptions r g.state).state)
    | .allFailed errors => (.allFailed errors, g.state)
    | .singleError e => (.singleError e, g.state)

end LLMClient

/-! ### Genkit provider (`src/ai/llm/providers/genkit.ts`) -/

/-- Outcome of the raced genkit prompt call, as seen by the `try` block of
`GenkitProvider.call`: a result whose `output` is a string (`success (some
…)`) or not a string (`success none`, which also covers a missing result),
the timeout promise firing first, an exception carrying a `message`
property, or a non-object exception. -/
inductive GenkitOutcome where
  | success (output : Option String)
  | timeoutFired
  | thrownMessage (msg : String)
  | thrownOther (text : String)
deriving DecidableEq, Repr

namespace GenkitProvider

/-- `GenkitProvider.call`, as a function of the remote outcome: the timeout
yields `LLMTimeoutError`; a non-string output yields
`LLMInvalidResponseError`; an exception message is sniffed for quota and
authentication wording and mapped to a base-class `LLMProviderError`
carrying the matching code; anything else becomes a generic or unknown
`LLMProviderError`. -/
def call (outcome : GenkitOutcome) (timeoutMs duration : Nat) :
    Except LLMProviderError LLMResponse :=
  match outcome with
  | .timeoutFired => .error (mkTimeoutError "Request timed out" "genkit" timeoutMs)
  | .success none =>
    .error (mkInvalidResponseError "Invalid response format from Genkit" "genkit")
  | .success (some out) =>
    .ok { content := out,
          metadata := { provider := "genkit",
                        model := some "googleai/gemini-2.0-flash",
                        duration := some duration, cached := some false } }
  | .thrownMessage m =>
    if containsSub m "quota" || containsSub m "rate limit" || containsSub m "429" then
      .error (mkProviderError ("Genkit quota exceeded: " ++ m) "genkit"
        (some "QUOTA_EXCEEDED") (some 429))
    else if containsSub m "unauthorized" || containsSub m "401" || containsSub m "API key" then
      .error (mkProviderError ("Genkit authentication failed: " ++ m) "genkit"
        (some "AUTHENTICATION_FAILED") (some 401))
    else
      .error (mkProviderError ("Genkit error: " ++ m) "genkit" (some "GENKIT_ERROR"))
  | .thrownOther t =>
    .error (mkProviderError ("Unknown Genkit error: " ++ t) "genkit" (some "UNKNOWN_ERROR"))

end GenkitProvider

/-! ### OpenRouter provider (`src/ai/llm/providers/openrouter.ts`) -/

/-- One element of `choices` in an OpenRouter response body; `message` may be
missing, and its `content` may fail the `typeof === 'string'` check. -/
structure ORChoice where
  message : Option (Option String)
deriving DecidableEq, Repr

/-- An OpenRouter response body as validated by `OpenRouterProvider.call`:
`choices` may be missing, `usage.total_tokens` and `model` are optional. -/
structure ORBody where
  choices : Option (List ORChoice)
  usage : Option Nat := none
  model : Option String := none
deriving DecidableEq, Repr

/-- What the transport layer hands to `OpenRouterProvider.call`: a 2xx body,
a non-ok HTTP response (status, extracted error message, parsed
`retry-after` header in seconds), the abort controller firing, a fetch
`TypeError`, or some other exception. -/
inductive TransportOutcome where
  | httpOk (body : ORBody)
  | httpError (status : Nat) (errorMessage : String) (retryAfterSeconds : Option Nat)
  | aborted
  | fetchTypeError (msg : String)
  | thrown (text : String)
deriving DecidableEq, Repr

namespace OpenRouterProvider

/-- `OpenRouterProvider.handleErrorResponse`: the status-code switch mapping
HTTP failures onto the typed error hierarchy. -/
def handleErrorResponse (status : Nat) (errorMessage : String)
    (retryAfterSeconds : Option Nat) : LLMProviderError :=
  if status = 401 then
    mkAuthenticationError ("OpenRouter authentication failed: " ++ errorMessage)
      "openrouter"
  else if status = 429 then
    mkQuotaExceededError ("OpenRouter rate limit exceeded: " ++ errorMessage)
      "openrouter" (retryAfterSeconds.map (· * 1000))
  else if status = 400 then
    mkProviderError ("OpenRouter bad request: " ++ errorMessage) "openrouter"
      (some "BAD_REQUEST") (some 400)
  else if status = 500 ∨ status = 502 ∨ status = 503 ∨ status = 504 then
    mkProviderError ("OpenRouter server error: " ++ errorMessage) "openrouter"
      (some "SERVER_ERROR") (some status)
  else
    mkProviderError ("OpenRouter error: " ++ errorMessage) "openrouter"
      (some "UNKNOWN_ERROR") (some status)

/-- `response.model || payload.models[0]`: an absent or empty `model` field
falls back to the first requested model (absent when the list is empty). -/
def modelField (bodyModel : Option String) (payloadModels : List String) :
    Option String :=
  match bodyModel with
  | some m => if m = "" then payloadModels.head? else some m
  | none => payloadModels.head?

/-- `OpenRouterProvider.call` as a function of the transport outcome: HTTP
failures go through `handleErrorResponse`, an abort becomes
`LLMTimeoutError`, a missing/empty `choices` array or a malformed first
choice becomes `LLMInvalidResponseError`, a fetch `TypeError` becomes a
`NETWORK_ERROR` provider error, and any other exception an `UNKNOWN_ERROR`
provider error — no raw transport exception escapes. -/
def call (outcome : TransportOutcome) (payloadModels : List String)
    (timeoutMs duration : Nat) : Except LLMProviderError LLMResponse :=
  match outcome with
  | .httpError status msg ra => .error (handleErrorResponse status msg ra)
  | .aborted => .error (mkTimeoutError "Request timed out" "openrouter" timeoutMs)
  | .fetchTypeError m =>
    .error (mkProviderError ("OpenRouter network error: " ++ m) "openrouter"
      (some "NETWORK_ERROR"))
  | .thrown t =>
    .error (mkProviderError ("Unknown OpenRouter error: " ++ t) "openrouter"
      (some "UNKNOWN_ERROR"))
  | .httpOk body =>
    match body.choices with
    | none =>
      .error (mkInvalidResponseError "No choices returned from OpenRouter" "openrouter")
    | some [] =>
      .error (mkInvalidResponseError "No choices returned from OpenRouter" "openrouter")
    | some (choice :: _) =>
      match choice.message with
      | none =>
        .error (mkInvalidResponseError "Invalid message format from OpenRouter"
          "openrouter")
      | some none =>
        .error (mkInvalidResponseError "Invalid message format from OpenRouter"
          "openrouter")
      | some (some content) =>
        .ok { content := content,
              metadata := { provider := "openrouter",
                            model := modelField body.model payloadModels,
                            tokens := body.usage,
                            duration := some duration, cached := some false } }

end OpenRouterProvider

/-! ### Consuming extraction flow -/

/-- The backtick character (code point 96), written via `Char.ofNat`. -/
def backtickChar : Char := Char.ofNat 96

/-- The three-backtick code-fence marker matched by `cleanJsonResponse`. -/
def fenceChars : List Char := [backtickChar, backtickChar, backtickChar]

/-- The optional `json` language tag after an opening fence. -/
def jsonTagChars : List Char := ['j', 's', 'o', 'n']

/-- `cleanJsonResponse`, translated from its replica in
`tests/ai/flows/json-parsing.test.ts`: the first match of the regular
expression matching three backticks, an optional `json` tag, lazily captured
content, and three closing backticks; the capture is trimmed, and a string
with no such match is returned trimmed as-is. -/
def cleanJsonResponse (content : String) : String :=
  let cs := content.toList
  match splitFirst fenceChars cs with
  | none => String.mk (trimChars cs)
  | some (_, rest) =>
    let rest2 := if jsonTagChars.isPrefixOf rest then rest.drop 4 else rest
    match splitFirst fenceChars rest2 with
    | some (body, _) => String.mk (trimChars body)
    | none => String.mk (trimChars cs)

/-- One record extracted by the transaction-extraction flow (field shapes
taken from the integration tests). -/
structure ExtractedTransaction where
  description : String
  category : Option String := none
  txType : Option String := none
  amount : Option ℚ := none
  date : Option String := none
  merchant : Option String := none
  paymentMethod : Option String := none
  location : Option String := none
deriving DecidableEq, Repr

/-- Modelled from the spec: the JSON post-processing of the consuming
extraction flow (`src/ai/flows/extract-transaction-details.ts`, whose source
file is not in the snapshot — only its tests, docs and callers are). Per the
spec it cleans the content with `cleanJsonResponse`, then runs `JSON.parse`
plus zod schema validation — abstracted here as the `parse` parameter, which
returns `none` on either a parse or a validation failure — and on failure
yields the empty result set instead of propagating the exception. The
sibling flow `parseAndValidateResponse` in
`src/ai/flows/handle-missing-transaction-data.ts` realizes the same
failure-handling contract with an all-null record. -/
def extractTransactionsFromContent
    (parse : String → Option (List ExtractedTransaction)) (content : String) :
    List ExtractedTransaction :=
  match parse (cleanJsonResponse content) with
  | some txs => txs
  | none => []

/-- Whether `callProviderWithRetries` ends in a terminal failure (an error
throw or the null rethrow) rather than a response. -/
def terminalFailure (p : Provider) (maxRetries : Nat) : Bool :=
  match (callProviderWithRetries p maxRetries).1 with
  | .ok _ => false
  | _ => true

/-- Whether a `call` outcome is a directly escaping single provider error. -/
def isSingleError : CallResult → Bool
  | .singleError _ => true
  | _ => false

/-! ### Association-list lemmas -/

theorem mapGet_mapSet_self (m : EntryMap) (k : CacheKeyContent) (v : CacheEntry) :
    mapGet (mapSet m k v) k = some v := by
  induction m with
  | nil => simp [mapSet, mapGet]
  | cons p rest ih =>
    by_cases h : p.1 = k
    · simp [mapSet, mapGet, h]
    · simp [mapSet, mapGet, h, ih]

theorem mapGet_mapDelete_self (m : EntryMap) (k : CacheKeyContent) :
    mapGet (mapDelete m k) k = none := by
  induction m with
  | nil => simp [mapDelete, mapGet]
  | cons p rest ih =>
    by_cases h : p.1 = k
    · simpa [mapDelete, List.filter, h] using ih
    · simpa [mapDelete, List.filter, h, mapGet] using ih

theorem length_mapSet_le (m : EntryMap) (k : CacheKeyContent) (v : CacheEntry) :
    (mapSet m k v).length ≤ m.length + 1 := by
  induction m with
  | nil => simp [mapSet]
  | cons p rest ih =>
    by_cases h : p.1 = k
    · simp [mapSet, h]
    · simp only [mapSet, h, if_false, List.length_cons]
      omega

theorem length_mapDelete_le (m : EntryMap) (k : CacheKeyContent) :
    (mapDelete m k).length ≤ m.length :=
  List.length_filter_le _ m

theorem length_mapDelete_lt_of_mem (m : EntryMap) (k : CacheKeyContent)
    (v : CacheEntry) (hmem : (k, v) ∈ m) : (mapDelete m k).length < m.length := by
  apply List.length_filter_lt_length_iff_exists.mpr
  exact ⟨(k, v), hmem, by simp⟩

theorem mem_of_mem_cleanupExpired (now : Nat) (m : EntryMap)
    (p : CacheKeyContent × CacheEntry) (h : p ∈ LLMCache.cleanupExpired now m) :
    p ∈ m :=
  (List.mem_filter.mp h).1

theorem length_cleanupExpired_le (now : Nat) (m : EntryMap) :
    (LLMCache.cleanupExpired now m).length ≤ m.length :=
  List.length_filter_le _ m

/-! ### `findOldest` lemmas -/

/-- Invariant of the fold inside `evictLRU`: the accumulator's time only
decreases, the final accumulator is either untouched or comes from an entry
of the list, and its time is a lower bound of every `lastAccessed` in the
list. -/
theorem findOldest_fold_spec (m : EntryMap) (acc : Option CacheKeyContent × Nat) :
    let r := m.foldl
      (fun acc p => if p.2.lastAccessed < acc.2 then (some p.1, p.2.lastAccessed) else acc)
      acc
    r.2 ≤ acc.2 ∧
    (r = acc ∨ ∃ k e, (k, e) ∈ m ∧ r.1 = some k ∧ r.2 = e.lastAccessed) ∧
    (∀ p ∈ m, r.2 ≤ p.2.lastAccessed) := by
  induction m generalizing acc with
  | nil => simp
  | cons q rest ih =>
    by_cases h : q.2.lastAccessed < acc.2
    · have spec := ih (some q.1, q.2.lastAccessed)
      refine ⟨?_, ?_, ?_⟩
      · simp only [List.foldl_cons, h, if_pos]
        exact le_of_lt (lt_of_le_of_lt spec.1 h)
      · simp only [List.foldl_cons, h, if_pos]
        rcases spec.2.1 with heq | ⟨k, e, hmem, h1, h2⟩
        · exact Or.inr ⟨q.1, q.2, List.mem_cons_self q rest, by simp [heq]⟩
        · exact Or.inr ⟨k, e, List.mem_cons_of_mem q hmem, h1, h2⟩
      · intro p hp
        simp only [List.foldl_cons, h, if_pos]
        rcases List.mem_cons.mp hp with rfl | hp'
        · exact spec.1
        · exact spec.2.2 p hp'
    · have spec := ih acc
      refine ⟨?_, ?_, ?_⟩
      · simpa [List.foldl_cons, h] using spec.1
      · simp only [List.foldl_cons, h, if_neg, if_false]
        rcases spec.2.1 with heq | ⟨k, e, hmem, h1, h2⟩
        · exact Or.inl heq
        · exact Or.inr ⟨k, e, List.mem_cons_of_mem q hmem, h1, h2⟩
      · intro p hp
        simp only [List.foldl_cons, h, if_neg, if_false]
        rcases List.mem_cons.mp hp with rfl | hp'
        · exact le_trans spec.1 (le_of_not_lt h)
        · exact spec.2.2 p hp'

/-- When `evictLRU`'s scan returns a key, that key belongs to an entry of
the map whose `lastAccessed` is minimal among all entries. -/
theorem findOldest_spec (now : Nat) (m : EntryMap) (k : CacheKeyContent)
    (h : LLMCache.findOldest now m = some k) :
    ∃ e, (k, e) ∈ m ∧ ∀ q ∈ m, e.lastAccessed ≤ q.2.lastAccessed := by
  have spec := findOldest_fold_spec m (none, now)
  rcases spec.2.1 with heq | ⟨k', e, hmem, h1, h2⟩
  · exfalso
    have : LLMCache.findOldest now m = none := by
      simp [LLMCache.findOldest, heq]
    simp [this] at h
  · have hk : k' = k := by
      have : LLMCache.findOldest now m = some k' := by
        simp [LLMCache.findOldest, h1]
      rw [this] at h
      exact Option.some.inj h
    subst hk
    refine ⟨e, hmem, fun q hq => ?_⟩
    have := spec.2.2 q hq
    omega

/-- When every entry was last accessed strictly before `now` and the map is
non-empty, the scan finds a victim. -/
theorem findOldest_isSome (now : Nat) (m : EntryMap) (hne : m ≠ [])
    (hall : ∀ p ∈ m, p.2.lastAccessed < now) :
    (LLMCache.findOldest now m).isSome = true := by
  have spec := findOldest_fold_spec m (none, now)
  rcases spec.2.1 with heq | ⟨k, e, hmem, h1, h2⟩
  · exfalso
    rcases m with _ | ⟨q, rest⟩
    · exact hne rfl
    · have hlt := hall q (List.mem_cons_self q rest)
      have hle := spec.2.2 q (List.mem_cons_self q rest)
      have : (List.foldl
          (fun acc p =>
            if p.2.lastAccessed < acc.2 then (some p.1, p.2.lastAccessed) else acc)
          (none, now) (q :: rest)).2 = now := by rw [heq]
      omega
  · simp [LLMCache.findOldest, h1]

/-! ### Sorting lemmas for the cache-key normalization -/

theorem lexLe_total (a b : List Char) : lexLe a b = true ∨ lexLe b a = true := by
  induction a generalizing b with
  | nil => left; rfl
  | cons x xs ih =>
    cases b with
    | nil => right; rfl
    | cons y ys =>
      rcases Nat.lt_trichotomy x.toNat y.toNat with h | h | h
      · left; simp [lexLe, h]
      · rcases ih ys with h' | h'
        · left; simp [lexLe, h, h']
        · right; simp [lexLe, h.symm, h']
      · right; simp [lexLe, h]

theorem lexLe_antisymm (a b : List Char) (hab : lexLe a b = true)
    (hba : lexLe b a = true) : a = b := by
  induction a generalizing b with
  | nil =>
    cases b with
    | nil => rfl
    | cons y ys => simp [lexLe] at hba
  | cons x xs ih =>
    cases b with
    | nil => simp [lexLe] at hab
    | cons y ys =>
      rcases Nat.lt_trichotomy x.toNat y.toNat with h | h | h
      · simp [lexLe, h, Nat.not_lt_of_lt h] at hba
      · have hx : x = y := Char.ext (UInt32.toNat.inj h)
        subst hx
        simp only [lexLe, lt_irrefl, if_false] at hab hba
        exact congrArg (x :: ·) (ih ys hab hba)
      · simp [lexLe, h, Nat.not_lt_of_lt h] at hab

theorem lexLe_trans (a b c : List Char) (hab : lexLe a b = true)
    (hbc : lexLe b c = true) : lexLe a c = true := by
  induction a generalizing b c with
  | nil => rfl
  | cons x xs ih =>
    cases b with
    | nil => simp [lexLe] at hab
    | cons y ys =>
      cases c with
      | nil => simp [lexLe] at hbc
      | cons z zs =>
        rcases Nat.lt_trichotomy x.toNat y.toNat with hxy | hxy | hxy
        · rcases Nat.lt_trichotomy y.toNat z.toNat with hyz | hyz | hyz
          · simp [lexLe, lt_trans hxy hyz]
          · simp [lexLe, hyz ▸ hxy]
          · simp [lexLe, hyz, Nat.not_lt_of_lt hyz] at hbc
        · have hx : x = y := Char.ext (UInt32.toNat.inj hxy)
          subst hx
          simp only [lexLe, lt_irrefl, if_false] at hab
          rcases Nat.lt_trichotomy x.toNat z.toNat with hxz | hxz | hxz
          · simp [lexLe, hxz]
          · have hz : x = z := Char.ext (UInt32.toNat.inj hxz)
            subst hz
            simp only [lexLe, lt_irrefl, if_false] at hbc ⊢
            exact ih ys zs hab hbc
          · simp [lexLe, hxz, Nat.not_lt_of_lt hxz] at hbc
        · simp [lexLe, hxy, Nat.not_lt_of_lt hxy] at hab

instance : IsTotal String strLeP :=
  ⟨fun a b => lexLe_total a.toList b.toList⟩

instance : IsTrans String strLeP :=
  ⟨fun a b c hab hbc => lexLe_trans a.toList b.toList c.toList hab hbc⟩

instance : IsAntisymm String strLeP :=
  ⟨fun a b hab hba => by
    have h := lexLe_antisymm a.toList b.toList hab hba
    have hdata : a.data = b.data := h
    cases a; cases b; exact congrArg String.mk hdata⟩

theorem jsSortStrings_perm (l : List String) : (jsSortStrings l).Perm l :=
  List.perm_insertionSort strLeP l

theorem jsSortStrings_sorted (l : List String) :
    List.Sorted strLeP (jsSortStrings l) :=
  List.sorted_insertionSort strLeP l

/-- Sorting is invariant under permutation of the input: the sorted order of
a multiset of strings is unique. -/
theorem jsSortStrings_eq_of_perm (l1 l2 : List String) (h : l1.Perm l2) :
    jsSortStrings l1 = jsSortStrings l2 :=
  List.eq_of_perm_of_sorted
    (((jsSortStrings_perm l1).trans h).trans (jsSortStrings_perm l2).symm)
    (jsSortStrings_sorted l1) (jsSortStrings_sorted l2)

/-! ### Claims about the cache -/

/-- C3: with caching enabled, `set(C,O,R)` followed by `get(C,O)` before the
TTL elapses returns `R` with `metadata.cached` replaced by `true`, while the
copy stored inside the cache has `cached` set to `false`. -/
theorem claim_C3_cache_roundtrip (now0 now1 : Nat) (messages : List LLMMessage)
    (options : Option LLMCallOptions) (R : LLMResponse) (s : LLMCache.State)
    (hen : s.config.enabled = true) (hfresh : now1 ≤ now0 + s.config.ttl) :
    ((LLMCache.get now1 messages options
        ((LLMCache.set now0 messages options R s).state)).value =
      some { R with metadata := { R.metadata with cached := some true } }) ∧
    (mapGet ((LLMCache.set now0 messages options R s).state).entries
        (generateKey messages options) =
      some { response := { R with metadata := { R.metadata with cached := some false } },
             expiresAt := now0 + s.config.ttl, accessCount := 0,
             lastAccessed := now0 }) := by
  have hstored :
      mapGet ((LLMCache.set now0 messages options R s).state).entries
        (generateKey messages options) =
      some { response := { R with metadata := { R.metadata with cached := some false } },
             expiresAt := now0 + s.config.ttl, accessCount := 0,
             lastAccessed := now0 } := by
    simp only [LLMCache.set, hen, not_true_eq_false, if_false]
    exact mapGet_mapSet_self _ _ _
  refine ⟨?_, hstored⟩
  have hcfg : ((LLMCache.set now0 messages options R s).state).config = s.config := by
    simp [LLMCache.set, hen]
  simp only [LLMCache.get, hcfg, hen, not_true_eq_false, if_false, hstored,
    LLMCache.isExpired]
  have hnotexp : ¬ now1 > now0 + s.config.ttl := by omega
  simp [hnotexp]

/-- C3 witness. -/
theorem claim_C3_witness :
    let msg : LLMMessage := { role := .user, content := "hello" }
    let R : LLMResponse :=
      { content := "world", metadata := { provider := "genkit", cached := some false } }
    let s := LLMCache.initState { enabled := true, ttl := 3600000, maxSize := 1000 }
    ((LLMCache.get 1000 [msg] none ((LLMCache.set 500 [msg] none R s).state)).value =
      some { R with metadata := { R.metadata with cached := some true } }) ∧
    (mapGet ((LLMCache.set 500 [msg] none R s).state).entries (generateKey [msg] none) =
      some { response := { R with metadata := { R.metadata with cached := some false } },
             expiresAt := 500 + 3600000, accessCount := 0, lastAccessed := 500 }) :=
  claim_C3_cache_roundtrip 500 1000 _ none _ _ (by decide) (by decide)

/-- C7: an entry inserted at `now0` with the configured TTL is a hit for a
`get` performed while `now1 ≤ now0 + ttl` (in particular strictly before the
TTL elapsed) and a miss strictly after; the miss on an expired entry also
deletes the entry from the map. -/
theorem claim_C7_ttl_expiry (now0 now1 now2 : Nat) (messages : List LLMMessage)
    (options : Option LLMCallOptions) (R : LLMResponse) (s : LLMCache.State)
    (hen : s.config.enabled = true) (hfresh : now1 ≤ now0 + s.config.ttl)
    (hstale : now0 + s.config.ttl < now2) :
    ((LLMCache.get now1 messages options
        ((LLMCache.set now0 messages options R s).state)).value.isSome = true) ∧
    ((LLMCache.get now2 messages options
        ((LLMCache.set now0 messages options R s).state)).value = none) ∧
    (mapGet (LLMCache.get now2 messages options
        ((LLMCache.set now0 messages options R s).state)).state.entries
      (generateKey messages options) = none) := by
  have hhit := (claim_C3_cache_roundtrip now0 now1 messages options R s hen hfresh).1
  have hstored := (claim_C3_cache_roundtrip now0 now1 messages options R s hen hfresh).2
  have hcfg : ((LLMCache.set now0 messages options R s).state).config = s.config := by
    simp [LLMCache.set, hen]
  refine ⟨by simp [hhit], ?_, ?_⟩
  · simp only [LLMCache.get, hcfg, hen, not_true_eq_false, if_false, hstored,
      LLMCache.isExpired]
    have hexp : now2 > now0 + s.config.ttl := hstale
    simp [hexp]
  · simp only [LLMCache.get, hcfg, hen, not_true_eq_false, if_false, hstored,
      LLMCache.isExpired]
    have hexp : now2 > now0 + s.config.ttl := hstale
    simp only [hexp, decide_True]
    exact mapGet_mapDelete_self _ _

/-- C7 witness. -/
theorem claim_C7_witness :
    let msg : LLMMessage := { role := .user, content := "q" }
    let R : LLMResponse := { content := "a", metadata := { provider := "genkit" } }
    let s := LLMCache.initState { enabled := true, ttl := 100, maxSize := 10 }
    ((LLMCache.get 150 [msg] none ((LLMCache.set 100 [msg] none R s).state)).value.isSome
       = true) ∧
    ((LLMCache.get 201 [msg] none ((LLMCache.set 100 [msg] none R s).state)).value
       = none) ∧
    (mapGet (LLMCache.get 201 [msg] none
        ((LLMCache.set 100 [msg] none R s).state)).state.entries
      (generateKey [msg] none) = none) :=
  claim_C7_ttl_expiry 100 150 201 _ none _ _ (by decide) (by decide) (by decide)

/-- C5: the cache key is invariant under reordering of `options.models`
(a permuted model list hits the entry stored under the original order),
while a change of `temperature` alone changes the key (the `get` misses). -/
theorem claim_C5_key_determinism (now0 now1 : Nat) (messages : List LLMMessage)
    (o : LLMCallOptions) (l1 l2 : List String) (t1 t2 : ℚ) (R : LLMResponse)
    (s : LLMCache.State) (hperm : l1.Perm l2) (hne : t1 ≠ t2)
    (hen : s.config.enabled = true) (hempty : s.entries = [])
    (hfresh : now1 ≤ now0 + s.config.ttl) :
    (generateKey messages (some { o with models := some l1 }) =
      generateKey messages (some { o with models := some l2 })) ∧
    ((LLMCache.get now1 messages (some { o with models := some l2 })
        ((LLMCache.set now0 messages (some { o with models := some l1 }) R s).state)
      ).value.isSome = true) ∧
    (generateKey messages (some { o with temperature := some t1 }) ≠
      generateKey messages (some { o with temperature := some t2 })) ∧
    ((LLMCache.get now1 messages (some { o with temperature := some t2 })
        ((LLMCache.set now0 messages (some { o with temperature := some t1 }) R s).state)
      ).value = none) := by
  have hkey : generateKey messages (some { o with models := some l1 }) =
      generateKey messages (some { o with models := some l2 }) := by
    simp [generateKey, jsSortStrings_eq_of_perm l1 l2 hperm]
  have hkeyT : generateKey messages (some { o with temperature := some t1 }) ≠
      generateKey messages (some { o with temperature := some t2 }) := by
    intro h
    exact hne (Option.some.inj (congrArg CacheKeyContent.temperature h))
  have hcfg1 : ((LLMCache.set now0 messages (some { o with models := some l1 }) R
      s).state).config = s.config := by
    simp [LLMCache.set, hen]
  have hcfg2 : ((LLMCache.set now0 messages (some { o with temperature := some t1 }) R
      s).state).config = s.config := by
    simp [LLMCache.set, hen]
  refine ⟨hkey, ?_, hkeyT, ?_⟩
  · have hstored := (claim_C3_cache_roundtrip now0 now1 messages
      (some { o with models := some l1 }) R s hen hfresh).2
    rw [hkey] at hstored
    simp only [LLMCache.get, hcfg1, hen, not_true_eq_false, if_false, hstored,
      LLMCache.isExpired]
    have hnotexp : ¬ now1 > now0 + s.config.ttl := by omega
    simp [hnotexp]
  · have hentries : ((LLMCache.set now0 messages
        (some { o with temperature := some t1 }) R s).state).entries =
        [(generateKey messages (some { o with temperature := some t1 }),
          { response := { R with metadata := { R.metadata with cached := some false } },
            expiresAt := now0 + s.config.ttl, accessCount := 0,
            lastAccessed := now0 })] := by
      simp [LLMCache.set, hen, hempty, LLMCache.cleanupExpired, LLMCache.evictLRU,
        LLMCache.findOldest, mapSet]
    simp only [LLMCache.get, hcfg2, hen, not_true_eq_false, if_false, hentries, mapGet]
    have : ¬ (generateKey messages (some { o with temperature := some t1 }) =
        generateKey messages (some { o with temperature := some t2 })) := hkeyT
    simp [this]

/-- C5 witness. -/
theorem claim_C5_witness :
    let msg : LLMMessage := { role := .user, content := "hi" }
    let o : LLMCallOptions := {}
    let R : LLMResponse := { content := "r", metadata := { provider := "genkit" } }
    let s := LLMCache.initState { enabled := true, ttl := 1000, maxSize := 10 }
    (generateKey [msg] (some { o with models := some ["b", "a"] }) =
      generateKey [msg] (some { o with models := some ["a", "b"] })) ∧
    ((LLMCache.get 20 [msg] (some { o with models := some ["a", "b"] })
        ((LLMCache.set 10 [msg] (some { o with models := some ["b", "a"] }) R s).state)
      ).value.isSome = true) ∧
    (generateKey [msg] (some { o with temperature := some 0 }) ≠
      generateKey [msg] (some { o with temperature := some 1 })) ∧
    ((LLMCache.get 20 [msg] (some { o with temperature := some 1 })
        ((LLMCache.set 10 [msg] (some { o with temperature := some 0 }) R s).state)
      ).value = none) :=
  claim_C5_key_determinism 10 20 _ _ ["b", "a"] ["a", "b"] 0 1 _ _
    (List.Perm.swap "a" "b" []) (by decide) (by decide) (by decide) (by decide)

/-- C10 counterexample: with caching disabled, `LLMCache.get` returns before
`generateKey` runs, so the caller's non-empty `models` array is NOT
reordered — after the call it still reads `["b", "a"]`, which is not the
sorted order `["a", "b"]`. This refutes the claim's "for every call". -/
theorem claim_C10_counterexample :
    ((LLMCache.get 5 [] (some { models := some ["b", "a"] })
        (LLMCache.initState { enabled := false, ttl := 1000, maxSize := 10 })
      ).callerOptions.bind (·.models) = some ["b", "a"]) ∧
    jsSortStrings ["b", "a"] = ["a", "b"] ∧
    (["b", "a"] : List String) ≠ ["a", "b"] := by
  refine ⟨?_, by decide, by decide⟩
  simp [LLMCache.get, LLMCache.initState]

/-- C10 (amended): with caching enabled, both `LLMCache.get` and
`LLMCache.set` sort the caller's `options.models` array in place while
computing the cache key — afterwards the caller's list is the sorted
permutation of the original — and the conversation (the messages array) is
left unchanged. -/
theorem claim_C10_frame_effect (now : Nat) (messages : List LLMMessage)
    (o : LLMCallOptions) (l : List String) (R : LLMResponse) (s : LLMCache.State)
    (hen : s.config.enabled = true) (hm : o.models = some l) :
    ((LLMCache.get now messages (some o) s).callerOptions =
      some { o with models := some (jsSortStrings l) }) ∧
    ((LLMCache.set now messages (some o) R s).callerOptions =
      some { o with models := some (jsSortStrings l) }) ∧
    (jsSortStrings l).Perm l ∧
    List.Sorted strLeP (jsSortStrings l) ∧
    ((LLMCache.get now messages (some o) s).callerMessages = messages) ∧
    ((LLMCache.set now messages (some o) R s).callerMessages = messages) := by
  have hopts : optionsAfterKeyGen (some o) =
      some { o with models := some (jsSortStrings l) } := by
    simp [optionsAfterKeyGen, hm]
  refine ⟨?_, ?_, jsSortStrings_perm l, jsSortStrings_sorted l, ?_, ?_⟩
  · simp only [LLMCache.get, hen, not_true_eq_false, if_false]
    rcases hget : mapGet s.entries (generateKey messages (some o)) with _ | entry
    · simp [hget, hopts]
    · rcases hexp : LLMCache.isExpired now entry with _ | _ <;> simp [hget, hexp, hopts]
  · simp [LLMCache.set, hen, hopts]
  · simp only [LLMCache.get, hen, not_true_eq_false, if_false]
    rcases hget : mapGet s.entries (generateKey messages (some o)) with _ | entry
    · simp [hget]
    · rcases hexp : LLMCache.isExpired now entry with _ | _ <;> simp [hget, hexp]
  · simp [LLMCache.set, hen]

/-- C10 witness. -/
theorem claim_C10_witness :
    let msg : LLMMessage := { role := .user, content := "m" }
    let o : LLMCallOptions := { models := some ["b", "a"] }
    let R : LLMResponse := { content := "r", metadata := { provider := "genkit" } }
    let s := LLMCache.initState { enabled := true, ttl := 1000, maxSize := 10 }
    ((LLMCache.get 5 [msg] (some o) s).callerOptions =
      some { o with models := some (jsSortStrings ["b", "a"]) }) ∧
    ((LLMCache.set 5 [msg] (some o) R s).callerOptions =
      some { o with models := some (jsSortStrings ["b", "a"]) }) ∧
    (jsSortStrings ["b", "a"]).Perm ["b", "a"] ∧
    List.Sorted strLeP (jsSortStrings ["b", "a"]) ∧
    ((LLMCache.get 5 [msg] (some o) s).callerMessages = [msg]) ∧
    ((LLMCache.set 5 [msg] (some o) R s).callerMessages = [msg]) :=
  claim_C10_frame_effect 5 _ _ ["b", "a"] _ _ (by decide) rfl

/-! ### Operation sequences over the cache (for the size invariant) -/

/-- A public cache operation. -/
inductive CacheOp where
  | opGet (now : Nat) (messages : List LLMMessage) (options : Option LLMCallOptions)
  | opSet (now : Nat) (messages : List LLMMessage) (options : Option LLMCallOptions)
      (response : LLMResponse)
  | opClear
  | opUpdateConfig (patch : CachePatch)
deriving Repr

/-- Run one cache operation for its state effect. -/
def runOp (s : LLMCache.State) : CacheOp → LLMCache.State
  | .opGet now messages options => (LLMCache.get now messages options s).state
  | .opSet now messages options r => (LLMCache.set now messages options r s).state
  | .opClear => LLMCache.clear s
  | .opUpdateConfig p => LLMCache.updateConfig p s

/-- Run a sequence of cache operations. -/
def runOps (s : LLMCache.State) : List CacheOp → LLMCache.State
  | [] => s
  | op :: rest => runOps (runOp s op) rest

/-- Timing/configuration discipline under which the size bound holds: each
`get`/`set` carries a timestamp strictly later than the previous one
(`Date.now()` never returning the same millisecond twice), and no
`updateConfig` lowers `maxSize`. `t` is the previous timestamp, `ms` the
current `maxSize`. -/
def opsLegal (t ms : Nat) : List CacheOp → Bool
  | [] => true
  | .opGet now _ _ :: rest => decide (t < now) && opsLegal now ms rest
  | .opSet now _ _ _ :: rest => decide (t < now) && opsLegal now ms rest
  | .opClear :: rest => opsLegal t ms rest
  | .opUpdateConfig p :: rest =>
    match p.maxSize with
    | none => opsLegal t ms rest
    | some m => decide (ms ≤ m) && opsLegal t m rest

theorem length_mapSet_eq_of_get (m : EntryMap) (k : CacheKeyContent)
    (v0 v : CacheEntry) (h : mapGet m k = some v0) :
    (mapSet m k v).length = m.length := by
  induction m with
  | nil => simp [mapGet] at h
  | cons p rest ih =>
    by_cases hk : p.1 = k
    · simp [mapSet, hk]
    · simp only [mapGet, hk, if_false] at h
      simp [mapSet, hk, ih h]

theorem mem_mapSet (m : EntryMap) (k : CacheKeyContent) (v : CacheEntry)
    (p : CacheKeyContent × CacheEntry) (h : p ∈ mapSet m k v) :
    p = (k, v) ∨ p ∈ m := by
  induction m with
  | nil => simpa [mapSet] using h
  | cons q rest ih =>
    by_cases hk : q.1 = k
    · simp only [mapSet, hk, if_pos] at h
      rcases List.mem_cons.mp h with rfl | h'
      · exact Or.inl rfl
      · exact Or.inr (List.mem_cons_of_mem q h')
    · simp only [mapSet, hk, if_false] at h
      rcases List.mem_cons.mp h with rfl | h'
      · exact Or.inr (List.mem_cons_self _ _)
      · rcases ih h' with h'' | h''
        · exact Or.inl h''
        · exact Or.inr (List.mem_cons_of_mem q h'')

theorem mem_of_mem_mapDelete (m : EntryMap) (k : CacheKeyContent)
    (p : CacheKeyContent × CacheEntry) (h : p ∈ mapDelete m k) : p ∈ m :=
  (List.mem_filter.mp h).1

/-- The state invariant formalizing the amended C2: the entry count is
within `maxSize`, every entry was last accessed no later than `t`, and
`maxSize` is positive (`ms` mirrors the configured `maxSize`). -/
def CacheInv (t ms : Nat) (s : LLMCache.State) : Prop :=
  s.entries.length ≤ s.config.maxSize ∧
  (∀ p ∈ s.entries, p.2.lastAccessed ≤ t) ∧
  1 ≤ s.config.maxSize ∧
  s.config.maxSize = ms

theorem cacheInv_get (t ms now : Nat) (messages : List LLMMessage)
    (options : Option LLMCallOptions) (s : LLMCache.State)
    (hinv : CacheInv t ms s) (ht : t ≤ now) :
    CacheInv now ms (LLMCache.get now messages options s).state := by
  obtain ⟨hlen, hacc, hpos, hms⟩ := hinv
  by_cases hen : s.config.enabled = true
  · simp only [LLMCache.get, hen, not_true_eq_false, if_false]
    rcases hget : mapGet s.entries (generateKey messages options) with _ | entry
    · exact ⟨hlen, fun p hp => le_trans (hacc p hp) ht, hpos, hms⟩
    · rcases hexp : LLMCache.isExpired now entry with _ | _
      · simp only [hexp, Bool.false_eq_true, if_false]
        refine ⟨?_, ?_, hpos, hms⟩
        · calc (mapSet s.entries (generateKey messages options)
                { entry with accessCount := entry.accessCount + 1,
                             lastAccessed := now }).length
              = s.entries.length := length_mapSet_eq_of_get _ _ entry _ hget
            _ ≤ s.config.maxSize := hlen
        · intro p hp
          rcases mem_mapSet _ _ _ p hp with rfl | hp'
          · exact le_refl now
          · exact le_trans (hacc p hp') ht
      · simp only [hexp, if_true]
        refine ⟨le_trans (length_mapDelete_le _ _) hlen, ?_, hpos, hms⟩
        intro p hp
        exact le_trans (hacc p (mem_of_mem_mapDelete _ _ p hp)) ht
  · simp only [LLMCache.get, hen, not_false_eq_true, if_true]
    exact ⟨hlen, fun p hp => le_trans (hacc p hp) ht, hpos, hms⟩

theorem cacheInv_set (t ms now : Nat) (messages : List LLMMessage)
    (options : Option LLMCallOptions) (R : LLMResponse) (s : LLMCache.State)
    (hinv : CacheInv t ms s) (ht : t < now) :
    CacheInv now ms (LLMCache.set now messages options R s).state := by
  obtain ⟨hlen, hacc, hpos, hms⟩ := hinv
  by_cases hen : s.config.enabled = true
  · simp only [LLMCache.set, hen, not_true_eq_false, if_false]
    set m1 := LLMCache.cleanupExpired now s.entries with hm1
    have hm1len : m1.length ≤ s.config.maxSize :=
      le_trans (length_cleanupExpired_le now s.entries) hlen
    have hm1acc : ∀ p ∈ m1, p.2.lastAccessed < now := fun p hp =>
      lt_of_le_of_lt (hacc p (mem_of_mem_cleanupExpired now s.entries p hp)) ht
    have hmain : (LLMCache.evictLRU now s.config.maxSize m1).length + 1 ≤
        s.config.maxSize + 1 ∧
        (LLMCache.evictLRU now s.config.maxSize m1).length < s.config.maxSize ∨
        (LLMCache.evictLRU now s.config.maxSize m1).length < s.config.maxSize := by
      right
      by_cases hcap : m1.length < s.config.maxSize
      · simp [LLMCache.evictLRU, hcap]
      · have heq : m1.length = s.config.maxSize := le_antisymm hm1len (le_of_not_lt hcap)
        have hne : m1 ≠ [] := by
          intro hnil
          rw [hnil] at heq
          simp at heq
          omega
        have hsome := findOldest_isSome now m1 hne hm1acc
        rcases hfo : LLMCache.findOldest now m1 with _ | k
        · rw [hfo] at hsome; simp at hsome
        · obtain ⟨e, hmem, _⟩ := findOldest_spec now m1 k hfo
          have hdel := length_mapDelete_lt_of_mem m1 k e hmem
          simp only [LLMCache.evictLRU, hcap, if_false, hfo]
          omega
    rcases hmain with ⟨_, hlt⟩ | hlt
    all_goals {
      refine ⟨?_, ?_, hpos, hms⟩
      · calc (mapSet (LLMCache.evictLRU now s.config.maxSize m1)
              (generateKey messages options) _).length
            ≤ (LLMCache.evictLRU now s.config.maxSize m1).length + 1 :=
              length_mapSet_le _ _ _
          _ ≤ s.config.maxSize := by omega
      · intro p hp
        rcases mem_mapSet _ _ _ p hp with rfl | hp'
        · exact le_refl now
        · have hpm1 : p ∈ m1 := by
            by_cases hcap : m1.length < s.config.maxSize
            · simpa [LLMCache.evictLRU, hcap] using hp'
            · rcases hfo : LLMCache.findOldest now m1 with _ | k
              · simpa [LLMCache.evictLRU, hcap, hfo] using hp'
              · simp only [LLMCache.evictLRU, hcap, if_false, hfo] at hp'
                exact mem_of_mem_mapDelete m1 k p hp'
          exact le_of_lt (hm1acc p hpm1)
    }
  · simp only [LLMCache.set, hen, not_false_eq_true, if_true]
    exact ⟨hlen, fun p hp => le_trans (hacc p hp) (le_of_lt ht), hpos, hms⟩

theorem cacheInv_clear (t ms : Nat) (s : LLMCache.State) (hinv : CacheInv t ms s) :
    CacheInv t ms (LLMCache.clear s) := by
  obtain ⟨_, _, hpos, hms⟩ := hinv
  exact ⟨by simp [LLMCache.clear], by simp [LLMCache.clear], hpos, hms⟩

theorem cacheInv_updateConfig (t ms m' : Nat) (p : CachePatch) (s : LLMCache.State)
    (hinv : CacheInv t ms s) (hp : p.maxSize = some m') (hmono : ms ≤ m') :
    CacheInv t m' (LLMCache.updateConfig p s) := by
  obtain ⟨hlen, hacc, hpos, hms⟩ := hinv
  have hcap : s.entries.length ≤ m' := by omega
  have hpos' : 1 ≤ m' := by omega
  simp only [LLMCache.updateConfig, hp, Option.getD_some]
  split
  · exact ⟨by simp [LLMCache.clear], by simp [LLMCache.clear],
      by simpa [LLMCache.clear] using hpos', by simp [LLMCache.clear]⟩
  · exact ⟨by simpa using hcap, by simpa using hacc, by simpa using hpos', by simp⟩

theorem cacheInv_updateConfig_none (t ms : Nat) (p : CachePatch) (s : LLMCache.State)
    (hinv : CacheInv t ms s) (hp : p.maxSize = none) :
    CacheInv t ms (LLMCache.updateConfig p s) := by
  obtain ⟨hlen, hacc, hpos, hms⟩ := hinv
  simp only [LLMCache.updateConfig, hp, Option.getD_none]
  split
  · exact ⟨by simp [LLMCache.clear], by simp [LLMCache.clear], by simpa using hpos,
      by simpa using hms⟩
  · exact ⟨by simpa using hlen, by simpa using hacc, by simpa using hpos,
      by simpa using hms⟩

theorem runOps_inv (ops : List CacheOp) (t ms : Nat) (s : LLMCache.State)
    (hinv : CacheInv t ms s) (hleg : opsLegal t ms ops = true) :
    ∃ t' ms', CacheInv t' ms' (runOps s ops) := by
  induction ops generalizing t ms s with
  | nil => exact ⟨t, ms, hinv⟩
  | cons op rest ih =>
    cases op with
    | opGet now messages options =>
      simp only [opsLegal, Bool.and_eq_true, decide_eq_true_eq] at hleg
      exact ih now ms _ (cacheInv_get t ms now messages options s hinv
        (le_of_lt hleg.1)) hleg.2
    | opSet now messages options R =>
      simp only [opsLegal, Bool.and_eq_true, decide_eq_true_eq] at hleg
      exact ih now ms _ (cacheInv_set t ms now messages options R s hinv hleg.1) hleg.2
    | opClear =>
      simp only [opsLegal] at hleg
      exact ih t ms _ (cacheInv_clear t ms s hinv) hleg
    | opUpdateConfig p =>
      rcases hp : p.maxSize with _ | m'
      · simp only [opsLegal, hp] at hleg
        exact ih t ms _ (cacheInv_updateConfig_none t ms p s hinv hp) hleg
      · simp only [opsLegal, hp, Bool.and_eq_true, decide_eq_true_eq] at hleg
        exact ih t m' _ (cacheInv_updateConfig t ms m' p s hinv hp hleg.1) hleg.2

/-- C2 counterexample: with `maxSize = 1`, two `set` calls that happen in the
same millisecond leave TWO entries in the cache — `evictLRU` seeds its scan
with `oldestTime = Date.now()` and only accepts strictly older entries, so
the entry written at the current timestamp is never chosen and nothing is
evicted. The claimed invariant fails for this operation sequence. -/
theorem claim_C2_counterexample :
    ((runOps (LLMCache.initState { enabled := true, ttl := 1000, maxSize := 1 })
      [CacheOp.opSet 5 [{ role := .user, content := "a" }] none
         { content := "r", metadata := { provider := "genkit" } },
       CacheOp.opSet 5 [{ role := .user, content := "b" }] none
         { content := "r", metadata := { provider := "genkit" } }]).entries.length = 2) ∧
    ((runOps (LLMCache.initState { enabled := true, ttl := 1000, maxSize := 1 })
      [CacheOp.opSet 5 [{ role := .user, content := "a" }] none
         { content := "r", metadata := { provider := "genkit" } },
       CacheOp.opSet 5 [{ role := .user, content := "b" }] none
         { content := "r", metadata := { provider := "genkit" } }]).config.maxSize = 1) := by
  decide

/-- C2 (amended): under strictly increasing operation timestamps, a positive
`maxSize`, and `updateConfig` never lowering `maxSize`, the number of cache
entries never exceeds the configured `maxSize`; and whenever `set` is at
capacity and the eviction scan finds a victim, `evictLRU` removes exactly
that key, which belongs to an entry with minimal `lastAccessed`. -/
theorem claim_C2_size_and_lru :
    (∀ (c : CacheConfig) (t0 : Nat) (ops : List CacheOp),
      1 ≤ c.maxSize → opsLegal t0 c.maxSize ops = true →
      (runOps (LLMCache.initState c) ops).entries.length ≤
        (runOps (LLMCache.initState c) ops).config.maxSize) ∧
    (∀ (now maxSize : Nat) (m : EntryMap) (k : CacheKeyContent),
      ¬ m.length < maxSize → LLMCache.findOldest now m = some k →
      LLMCache.evictLRU now maxSize m = mapDelete m k ∧
      ∃ e, (k, e) ∈ m ∧ ∀ q ∈ m, e.lastAccessed ≤ q.2.lastAccessed) := by
  constructor
  · intro c t0 ops hpos hleg
    obtain ⟨t', ms', hinv⟩ := runOps_inv ops t0 c.maxSize (LLMCache.initState c)
      ⟨by simp [LLMCache.initState], by simp [LLMCache.initState],
       by simpa [LLMCache.initState] using hpos, by simp [LLMCache.initState]⟩ hleg
    exact hinv.1
  · intro now maxSize m k hcap hfo
    exact ⟨by simp [LLMCache.evictLRU, hcap, hfo], findOldest_spec now m k hfo⟩

/-- C2 witness. -/
theorem claim_C2_witness :
    let c : CacheConfig := { enabled := true, ttl := 1000, maxSize := 1 }
    let R : LLMResponse := { content := "r", metadata := { provider := "genkit" } }
    let ops := [CacheOp.opSet 5 [{ role := Role.user, content := "a" }] none R,
                CacheOp.opSet 6 [{ role := Role.user, content := "b" }] none R]
    let k := generateKey [{ role := Role.user, content := "a" }] none
    let e1 : CacheEntry :=
      { response := R, expiresAt := 1005, accessCount := 0, lastAccessed := 5 }
    let m : EntryMap := [(k, e1)]
    ((runOps (LLMCache.initState c) ops).entries.length ≤
      (runOps (LLMCache.initState c) ops).config.maxSize) ∧
    (LLMCache.evictLRU 9 1 m = mapDelete m k ∧
      ∃ e, (k, e) ∈ m ∧ ∀ q ∈ m, e.lastAccessed ≤ q.2.lastAccessed) :=
  ⟨claim_C2_size_and_lru.1 { enabled := true, ttl := 1000, maxSize := 1 } 0
      [CacheOp.opSet 5 [{ role := Role.user, content := "a" }] none
         { content := "r", metadata := { provider := "genkit" } },
       CacheOp.opSet 6 [{ role := Role.user, content := "b" }] none
         { content := "r", metadata := { provider := "genkit" } }]
      (by decide) (by decide),
   claim_C2_size_and_lru.2 9 1
      [(generateKey [{ role := Role.user, content := "a" }] none,
        { response := { content := "r", metadata := { provider := "genkit" } },
          expiresAt := 1005, accessCount := 0, lastAccessed := 5 })]
      (generateKey [{ role := Role.user, content := "a" }] none)
      (by decide) (by decide)⟩

/-! ### Claims about the orchestrator -/

/-- When every provider in the list fails terminally, the provider loop
aggregates exactly the recorded errors, in attempt order, appended to the
errors already accumulated. -/
theorem tryProviders_allFailed (mr : Nat) (ps : List Provider)
    (errs : List LLMProviderError) (h : ∀ p ∈ ps, terminalFailure p mr = true) :
    tryProviders mr ps errs = .allFailed (errs ++ ps.map (recordedError · mr)) := by
  induction ps generalizing errs with
  | nil => simp [tryProviders]
  | cons p rest ih =>
    have hp := h p (List.mem_cons_self p rest)
    have hrest : ∀ q ∈ rest, terminalFailure q mr = true := fun q hq =>
      h q (List.mem_cons_of_mem p hq)
    rcases hout : (callProviderWithRetries p mr).1 with r | e | _
    · simp [terminalFailure, hout] at hp
    · simp only [tryProviders, hout, ih (errs ++ [e]) hrest, List.map_cons,
        recordedError, List.append_assoc, List.singleton_append]
    · simp only [tryProviders, hout, ih (errs ++ [wrapNullError p.name]) hrest,
        List.map_cons, recordedError, List.append_assoc, List.singleton_append]

/-- C1: on a cache miss, if every configured provider fails terminally,
`LLMClient.call` rejects with an `AllProvidersFailedError` whose `errors`
array is exactly the per-provider recorded error, one per attempted
provider, in the order the providers were attempted. -/
theorem claim_C1_aggregate_failure (providers : List Provider) (mr now : Nat)
    (messages : List LLMMessage) (options : Option LLMCallOptions)
    (s : LLMCache.State)
    (hmiss : (LLMCache.get now messages options s).value = none)
    (hfail : ∀ p ∈ providers, terminalFailure p mr = true) :
    (LLMClient.call providers mr now messages options s).1 =
      .allFailed (providers.map (recordedError · mr)) ∧
    (providers.map (recordedError · mr)).length = providers.length := by
  refine ⟨?_, by simp⟩
  simp only [LLMClient.call, hmiss]
  rw [tryProviders_allFailed mr providers [] hfail]
  simp

/-- C1 witness. -/
theorem claim_C1_witness :
    let p1 : Provider :=
      { name := "genkit",
        behavior := fun _ =>
          Except.error (mkProviderError "boom" "genkit" (some "GENKIT_ERROR")) }
    let p2 : Provider :=
      { name := "openrouter",
        behavior := fun _ =>
          Except.error (mkProviderError "down" "openrouter" (some "SERVER_ERROR")) }
    let s := LLMCache.initState { enabled := false, ttl := 0, maxSize := 10 }
    ((LLMClient.call [p1, p2] 2 0 [] none s).1 =
      .allFailed ([p1, p2].map (recordedError · 2))) ∧
    ([p1, p2].map (recordedError · 2)).length = ([p1, p2] : List Provider).length :=
  claim_C1_aggregate_failure _ 2 0 [] none _ (by decide) (by decide)

/-- C4: when a provider's first call fails with code `AUTHENTICATION_FAILED`
or `QUOTA_EXCEEDED`, the retry loop breaks immediately: the provider is
invoked exactly once, that error becomes the provider's terminal error, and
the orchestrator's loop advances to the next provider carrying it. -/
theorem claim_C4_no_retry_on_auth_quota (p : Provider) (rest : List Provider)
    (mr : Nat) (e : LLMProviderError) (errs : List LLMProviderError)
    (hmr : 1 ≤ mr) (hb : p.behavior 1 = .error e)
    (hcode : e.code = some "AUTHENTICATION_FAILED" ∨ e.code = some "QUOTA_EXCEEDED") :
    (callProviderWithRetries p mr).2 = 1 ∧
    (callProviderWithRetries p mr).1 = .err e ∧
    tryProviders mr (p :: rest) errs = tryProviders mr rest (errs ++ [e]) := by
  obtain ⟨m, rfl⟩ : ∃ m, mr = m + 1 := ⟨mr - 1, by omega⟩
  have hretr : callProviderWithRetries p (m + 1) = (.err e, 1) := by
    have hnot : ¬ (1 > m + 1) := by omega
    simp only [callProviderWithRetries, retriesGo, hnot, if_false, hb]
    rw [if_pos hcode]
  exact ⟨by simp [hretr], by simp [hretr], by simp [tryProviders, hretr]⟩

/-- C4 witness. -/
theorem claim_C4_witness :
    let e := mkQuotaExceededError "rate limited" "openrouter" (some 2000)
    let p : Provider :=
      { name := "openrouter", behavior := fun _ => Except.error e }
    let q : Provider :=
      { name := "genkit",
        behavior := fun _ =>
          Except.error (mkProviderError "boom" "genkit" (some "GENKIT_ERROR")) }
    ((callProviderWithRetries p 2).2 = 1 ∧
     (callProviderWithRetries p 2).1 = .err e ∧
     tryProviders 2 [p, q] [] = tryProviders 2 [q] ([] ++ [e])) :=
  claim_C4_no_retry_on_auth_quota _ _ 2 _ [] (by decide) rfl (Or.inr rfl)

/-- C8 counterexample: with fallback disabled the client holds exactly one
provider, and when that provider fails terminally `call` still throws the
aggregate `LLMAllProvidersFailedError` wrapping the one recorded error — it
never rethrows the provider's `LLMProviderError` directly, contrary to the
claim. -/
theorem claim_C8_counterexample :
    let p : Provider :=
      { name := "genkit",
        behavior := fun _ =>
          Except.error (mkProviderError "boom" "genkit" (some "GENKIT_ERROR")) }
    let s := LLMCache.initState { enabled := false, ttl := 0, maxSize := 10 }
    ((LLMClient.call [p] 2 0 [] none s).1 =
      CallResult.allFailed [mkProviderError "boom" "genkit" (some "GENKIT_ERROR")]) ∧
    isSingleError (LLMClient.call [p] 2 0 [] none s).1 = false := by
  decide

/-- C8 (amended): with fallback disabled `initializeProviders` yields the
single genkit provider, and a terminal failure of a sole provider escapes
`call` as an `AllProvidersFailedError` whose `errors` array contains exactly
that provider's recorded error (not as a directly thrown provider error). -/
theorem claim_C8_single_provider_failure :
    (∀ (key : Option String) (genkit openrouter : Provider),
      initProviders false key genkit openrouter = [genkit]) ∧
    (∀ (p : Provider) (mr now : Nat) (messages : List LLMMessage)
      (options : Option LLMCallOptions) (s : LLMCache.State),
      (LLMCache.get now messages options s).value = none →
      terminalFailure p mr = true →
      (LLMClient.call [p] mr now messages options s).1 =
        .allFailed [recordedError p mr] ∧
      isSingleError (LLMClient.call [p] mr now messages options s).1 = false) := by
  constructor
  · intro key genkit openrouter
    simp [initProviders]
  · intro p mr now messages options s hmiss hfail
    have hloop := tryProviders_allFailed mr [p] []
      (by intro q hq; rcases List.mem_singleton.mp hq with rfl; exact hfail)
    simp only [List.map_cons, List.map_nil, List.nil_append] at hloop
    constructor
    · simp only [LLMClient.call, hmiss]
      rw [hloop]
    · simp only [LLMClient.call, hmiss]
      rw [hloop]
      simp [isSingleError]

/-- C8 witness. -/
theorem claim_C8_witness :
    let p : Provider :=
      { name := "genkit",
        behavior := fun _ =>
          Except.error (mkProviderError "boom" "genkit" (some "GENKIT_ERROR")) }
    let q : Provider :=
      { name := "openrouter",
        behavior := fun _ =>
          Except.error (mkProviderError "down" "openrouter" (some "SERVER_ERROR")) }
    let s := LLMCache.initState { enabled := false, ttl := 0, maxSize := 10 }
    (initProviders false (some "key") p q = [p]) ∧
    ((LLMClient.call [p] 2 0 [] none s).1 = .allFailed [recordedError p 2] ∧
      isSingleError (LLMClient.call [p] 2 0 [] none s).1 = false) :=
  ⟨claim_C8_single_provider_failure.1 (some "key") _ _,
   claim_C8_single_provider_failure.2 _ 2 0 [] none _ (by decide) (by decide)⟩

/-! ### Claims about the providers -/

/-- C6 counterexample: the genkit provider maps a quota condition (an
exception whose message contains `quota`) to a BASE-class
`LLMProviderError` carrying the `QUOTA_EXCEEDED` code — not to an
`LLMQuotaExceededError` — and it never carries a `retryAfter`. The claim
that every provider yields `QuotaExceededError` for quota conditions is
therefore false on the code. -/
theorem claim_C6_counterexample :
    GenkitProvider.call (.thrownMessage "quota exceeded for project") 30000 5 =
      .error (mkProviderError "Genkit quota exceeded: quota exceeded for project"
        "genkit" (some "QUOTA_EXCEEDED") (some 429)) ∧
    (mkProviderError "Genkit quota exceeded: quota exceeded for project"
        "genkit" (some "QUOTA_EXCEEDED") (some 429)).cls = ErrClass.base ∧
    ErrClass.base ≠ ErrClass.quota ∧
    (mkProviderError "Genkit quota exceeded: quota exceeded for project"
        "genkit" (some "QUOTA_EXCEEDED") (some 429)).retryAfter = none :=
  ⟨rfl, rfl, by decide, rfl⟩

/-- C6 (amended): OpenRouter translates HTTP 401 to `AuthenticationError`,
HTTP 429 to `QuotaExceededError` carrying the transport's `retry-after`
(seconds scaled to milliseconds), a missing/empty/malformed body to
`InvalidResponseError`, any other HTTP status to a generic `ProviderError`
tagged with the raw status, and wraps aborts and raw transport exceptions
into typed errors; Genkit maps quota and authentication wording to
base-class `ProviderError` values carrying the `QUOTA_EXCEEDED` /
`AUTHENTICATION_FAILED` codes (no specialized class, no `retryAfter`) and a
malformed output to `InvalidResponseError`. No raw transport exception
escapes either provider. -/
theorem claim_C6_error_translation :
    (∀ (msg : String) (ra : Option Nat),
      OpenRouterProvider.handleErrorResponse 401 msg ra =
        mkAuthenticationError ("OpenRouter authentication failed: " ++ msg)
          "openrouter") ∧
    (∀ (msg : String) (ra : Option Nat),
      OpenRouterProvider.handleErrorResponse 429 msg ra =
        mkQuotaExceededError ("OpenRouter rate limit exceeded: " ++ msg)
          "openrouter" (ra.map (· * 1000))) ∧
    (∀ (status : Nat) (msg : String) (ra : Option Nat),
      status ≠ 401 → status ≠ 429 →
      (OpenRouterProvider.handleErrorResponse status msg ra).cls = ErrClass.base ∧
      (OpenRouterProvider.handleErrorResponse status msg ra).statusCode =
        some status) ∧
    (∀ (usage : Option Nat) (model : Option String) (models : List String)
      (tm d : Nat),
      OpenRouterProvider.call
          (.httpOk { choices := none, usage := usage, model := model }) models tm d =
        .error (mkInvalidResponseError "No choices returned from OpenRouter"
          "openrouter") ∧
      OpenRouterProvider.call
          (.httpOk { choices := some [], usage := usage, model := model }) models tm d =
        .error (mkInvalidResponseError "No choices returned from OpenRouter"
          "openrouter") ∧
      OpenRouterProvider.call
          (.httpOk { choices := some [{ message := none }], usage := usage,
                     model := model }) models tm d =
        .error (mkInvalidResponseError "Invalid message format from OpenRouter"
          "openrouter")) ∧
    (∀ (models : List String) (tm d : Nat) (m t : String),
      OpenRouterProvider.call .aborted models tm d =
        .error (mkTimeoutError "Request timed out" "openrouter" tm) ∧
      OpenRouterProvider.call (.fetchTypeError m) models tm d =
        .error (mkProviderError ("OpenRouter network error: " ++ m) "openrouter"
          (some "NETWORK_ERROR")) ∧
      OpenRouterProvider.call (.thrown t) models tm d =
        .error (mkProviderError ("Unknown OpenRouter error: " ++ t) "openrouter"
          (some "UNKNOWN_ERROR"))) ∧
    (∀ (m : String) (tm d : Nat),
      (containsSub m "quota" || containsSub m "rate limit" || containsSub m "429")
          = true →
      GenkitProvider.call (.thrownMessage m) tm d =
        .error (mkProviderError ("Genkit quota exceeded: " ++ m) "genkit"
          (some "QUOTA_EXCEEDED") (some 429))) ∧
    (∀ (m : String) (tm d : Nat),
      (containsSub m "quota" || containsSub m "rate limit" || containsSub m "429")
          = false →
      (containsSub m "unauthorized" || containsSub m "401" ||
          containsSub m "API key") = true →
      GenkitProvider.call (.thrownMessage m) tm d =
        .error (mkProviderError ("Genkit authentication failed: " ++ m) "genkit"
          (some "AUTHENTICATION_FAILED") (some 401))) ∧
    (∀ (tm d : Nat),
      GenkitProvider.call (.success none) tm d =
        .error (mkInvalidResponseError "Invalid response format from Genkit"
          "genkit")) := by
  refine ⟨?_, ?_, ?_, ?_, ?_, ?_, ?_, ?_⟩
  · intro msg ra
    simp [OpenRouterProvider.handleErrorResponse]
  · intro msg ra
    simp [OpenRouterProvider.handleErrorResponse]
  · intro status msg ra h401 h429
    by_cases h400 : status = 400
    · subst h400
      simp [OpenRouterProvider.handleErrorResponse, mkProviderError]
    · by_cases hsrv : status = 500 ∨ status = 502 ∨ status = 503 ∨ status = 504
      · constructor <;>
          simp [OpenRouterProvider.handleErrorResponse, h401, h429, h400, hsrv,
            mkProviderError]
      · constructor <;>
          simp [OpenRouterProvider.handleErrorResponse, h401, h429, h400, hsrv,
            mkProviderError]
  · intro usage model models tm d
    refine ⟨rfl, rfl, rfl⟩
  · intro models tm d m t
    refine ⟨rfl, rfl, rfl⟩
  · intro m tm d hq
    simp [GenkitProvider.call, hq]
  · intro m tm d hq ha
    simp [GenkitProvider.call, hq, ha]
  · intro tm d
    rfl

/-- C6 witness. -/
theorem claim_C6_witness :
    (OpenRouterProvider.handleErrorResponse 401 "bad key" none =
      mkAuthenticationError "OpenRouter authentication failed: bad key"
        "openrouter") ∧
    (OpenRouterProvider.handleErrorResponse 429 "slow down" (some 2) =
      mkQuotaExceededError "OpenRouter rate limit exceeded: slow down"
        "openrouter" (some 2000)) ∧
    ((OpenRouterProvider.handleErrorResponse 503 "oops" none).cls = ErrClass.base ∧
     (OpenRouterProvider.handleErrorResponse 503 "oops" none).statusCode = some 503) ∧
    (GenkitProvider.call (.thrownMessage "quota hit") 30000 5 =
      .error (mkProviderError "Genkit quota exceeded: quota hit" "genkit"
        (some "QUOTA_EXCEEDED") (some 429))) ∧
    (GenkitProvider.call (.thrownMessage "invalid API key") 30000 5 =
      .error (mkProviderError "Genkit authentication failed: invalid API key"
        "genkit" (some "AUTHENTICATION_FAILED") (some 401))) :=
  ⟨claim_C6_error_translation.1 "bad key" none,
   by
     have h := claim_C6_error_translation.2.1 "slow down" (some 2)
     simpa using h,
   claim_C6_error_translation.2.2.1 503 "oops" none (by decide) (by decide),
   claim_C6_error_translation.2.2.2.2.2.1 "quota hit" 30000 5 (by decide),
   claim_C6_error_translation.2.2.2.2.2.2.1 "invalid API key" 30000 5 (by decide)
     (by decide)⟩

/-! ### Claims about the extraction flow's JSON post-processing -/

theorem isPrefixOf_append_self (l t : List Char) : l.isPrefixOf (l ++ t) = true := by
  induction l with
  | nil => simp [List.isPrefixOf]
  | cons c cs ih => simp [List.isPrefixOf, ih]

theorem splitFirst_cons_self (pat t : List Char) (hne : pat ≠ []) :
    splitFirst pat (pat ++ t) = some ([], t) := by
  cases pat with
  | nil => exact absurd rfl hne
  | cons c cs =>
    have hpre : (c :: cs).isPrefixOf ((c :: cs) ++ t) = true :=
      isPrefixOf_append_self _ _
    simp only [List.cons_append] at hpre ⊢
    simp only [splitFirst, hpre, if_true]
    rw [show c :: (cs ++ t) = (c :: cs) ++ t from rfl, List.drop_left]

theorem splitFirst_none_of_all_ne (c0 : Char) (pat' l : List Char)
    (h : ∀ x ∈ l, x ≠ c0) : splitFirst (c0 :: pat') l = none := by
  induction l with
  | nil => rfl
  | cons x xs ih =>
    have hx : x ≠ c0 := h x (List.mem_cons_self x xs)
    have hbeq : (c0 == x) = false := beq_eq_false_iff_ne.mpr (fun hh => hx hh.symm)
    have hpre : (c0 :: pat').isPrefixOf (x :: xs) = false := by
      simp [List.isPrefixOf, hbeq]
    simp [splitFirst, hpre, ih (fun y hy => h y (List.mem_cons_of_mem x hy))]

theorem splitFirst_mid (c0 : Char) (pat' a b : List Char)
    (h : ∀ x ∈ a, x ≠ c0) :
    splitFirst (c0 :: pat') (a ++ (c0 :: pat') ++ b) = some (a, b) := by
  induction a with
  | nil => simpa using splitFirst_cons_self (c0 :: pat') b (by simp)
  | cons x a' ih =>
    have hx : x ≠ c0 := h x (List.mem_cons_self x a')
    have hbeq : (c0 == x) = false := beq_eq_false_iff_ne.mpr (fun hh => hx hh.symm)
    have hpre : (c0 :: pat').isPrefixOf (x :: (a' ++ c0 :: (pat' ++ b))) = false := by
      simp [List.isPrefixOf, hbeq]
    have ih' := ih (fun y hy => h y (List.mem_cons_of_mem x hy))
    simp only [List.cons_append, List.append_assoc] at ih' ⊢
    simp only [splitFirst, hpre, Bool.false_eq_true, if_false, ih']
    rfl

theorem trimChars_ws_head (c : Char) (l : List Char) (hc : wsChar c = true) :
    trimChars (c :: l) = trimChars l := by
  simp [trimChars, List.dropWhile_cons, hc]

theorem trimChars_ws_last (c : Char) (l : List Char) (hc : wsChar c = true) :
    trimChars (l ++ [c]) = trimChars l := by
  unfold trimChars
  rw [List.dropWhile_append]
  by_cases hemp : (List.dropWhile wsChar l).isEmpty = true
  · simp [hemp, List.dropWhile_cons, hc, List.isEmpty_iff.mp hemp]
  · rw [if_neg hemp]
    simp [List.reverse_append, List.dropWhile_cons, hc]

theorem cleanJsonResponse_of_no_fence (s : String)
    (h : ∀ x ∈ s.toList, x ≠ backtickChar) :
    cleanJsonResponse s = String.mk (trimChars s.toList) := by
  have hnone : splitFirst fenceChars s.toList = none :=
    splitFirst_none_of_all_ne backtickChar [backtickChar, backtickChar] s.toList h
  have hnone' : splitFirst fenceChars s.data = none := hnone
  simp [cleanJsonResponse, hnone, hnone']

theorem toList_append_str (a b : String) : (a ++ b).toList = a.toList ++ b.toList := by
  simp [String.toList, String.data_append]

theorem cleanJsonResponse_fence_json (body : String)
    (h : ∀ x ∈ body.toList, x ≠ backtickChar) :
    cleanJsonResponse ("```json\n" ++ body ++ "\n```") =
      String.mk (trimChars body.toList) := by
  have hmid : ∀ x ∈ ('\n' :: (body.toList ++ ['\n'])), x ≠ backtickChar := by
    intro x hx
    rcases List.mem_cons.mp hx with rfl | hx'
    · decide
    · rcases List.mem_append.mp hx' with hb | hl
      · exact h x hb
      · rcases List.mem_singleton.mp hl with rfl
        decide
  have h2 : ("```json\n").toList = fenceChars ++ (jsonTagChars ++ ['\n']) := by decide
  have h3 : ("\n```").toList = '\n' :: fenceChars := by decide
  have hcs : ("```json\n" ++ body ++ "\n```").toList =
      fenceChars ++ (jsonTagChars ++
        (('\n' :: (body.toList ++ ['\n'])) ++ fenceChars)) := by
    rw [toList_append_str, toList_append_str, h2, h3]
    simp [List.append_assoc]
  have hs1 : splitFirst fenceChars (fenceChars ++ (jsonTagChars ++
      (('\n' :: (body.toList ++ ['\n'])) ++ fenceChars))) =
      some ([], jsonTagChars ++ (('\n' :: (body.toList ++ ['\n'])) ++ fenceChars)) :=
    splitFirst_cons_self _ _ (by decide)
  have hs2 : jsonTagChars.isPrefixOf (jsonTagChars ++
      (('\n' :: (body.toList ++ ['\n'])) ++ fenceChars)) = true :=
    isPrefixOf_append_self _ _
  have hdrop : (jsonTagChars ++ (('\n' :: (body.toList ++ ['\n'])) ++
      fenceChars)).drop 4 = ('\n' :: (body.toList ++ ['\n'])) ++ fenceChars := by
    rw [show (4 : Nat) = jsonTagChars.length from rfl, List.drop_left]
  have hs3 : splitFirst fenceChars (('\n' :: (body.toList ++ ['\n'])) ++ fenceChars) =
      some ('\n' :: (body.toList ++ ['\n']), []) := by
    have := splitFirst_mid backtickChar [backtickChar, backtickChar]
      ('\n' :: (body.toList ++ ['\n'])) [] hmid
    simpa using this
  have htrim : trimChars ('\n' :: (body.toList ++ ['\n'])) = trimChars body.toList := by
    rw [trimChars_ws_head _ _ (by decide), trimChars_ws_last _ _ (by decide)]
  simp only [cleanJsonResponse, hcs, hs1, hs2, if_true, hdrop, hs3, htrim]

theorem cleanJsonResponse_fence_bare (body : String)
    (h : ∀ x ∈ body.toList, x ≠ backtickChar) :
    cleanJsonResponse ("```\n" ++ body ++ "\n```") =
      String.mk (trimChars body.toList) := by
  have hmid : ∀ x ∈ ('\n' :: (body.toList ++ ['\n'])), x ≠ backtickChar := by
    intro x hx
    rcases List.mem_cons.mp hx with rfl | hx'
    · decide
    · rcases List.mem_append.mp hx' with hb | hl
      · exact h x hb
      · rcases List.mem_singleton.mp hl with rfl
        decide
  have h2 : ("```\n").toList = fenceChars ++ ['\n'] := by decide
  have h3 : ("\n```").toList = '\n' :: fenceChars := by decide
  have hcs : ("```\n" ++ body ++ "\n```").toList =
      fenceChars ++ (('\n' :: (body.toList ++ ['\n'])) ++ fenceChars) := by
    rw [toList_append_str, toList_append_str, h2, h3]
    simp [List.append_assoc]
  have hs1 : splitFirst fenceChars (fenceChars ++
      (('\n' :: (body.toList ++ ['\n'])) ++ fenceChars)) =
      some ([], ('\n' :: (body.toList ++ ['\n'])) ++ fenceChars) :=
    splitFirst_cons_self _ _ (by decide)
  have hs2 : jsonTagChars.isPrefixOf (('\n' :: (body.toList ++ ['\n'])) ++
      fenceChars) = false := by
    simp [jsonTagChars, List.isPrefixOf]
  have hs3 : splitFirst fenceChars (('\n' :: (body.toList ++ ['\n'])) ++ fenceChars) =
      some ('\n' :: (body.toList ++ ['\n']), []) := by
    have := splitFirst_mid backtickChar [backtickChar, backtickChar]
      ('\n' :: (body.toList ++ ['\n'])) [] hmid
    simpa using this
  have htrim : trimChars ('\n' :: (body.toList ++ ['\n'])) = trimChars body.toList := by
    rw [trimChars_ws_head _ _ (by decide), trimChars_ws_last _ _ (by decide)]
  simp only [cleanJsonResponse, hcs, hs1, hs2, Bool.false_eq_true, if_false, hs3, htrim]

/-- C9: the consuming extraction flow strips a leading/trailing markdown
code fence (with or without the `json` language tag) before JSON parsing —
on fence-free payloads the fenced and unfenced contents parse identically —
and on any JSON-parse or schema-validation failure it returns the empty
result set instead of propagating a parse exception. -/
theorem claim_C9_flow_json_tolerance :
    (∀ (parse : String → Option (List ExtractedTransaction)) (body : String),
      (∀ x ∈ body.toList, x ≠ backtickChar) →
      extractTransactionsFromContent parse ("```json\n" ++ body ++ "\n```") =
        extractTransactionsFromContent parse body ∧
      extractTransactionsFromContent parse ("```\n" ++ body ++ "\n```") =
        extractTransactionsFromContent parse body) ∧
    (∀ (parse : String → Option (List ExtractedTransaction)) (content : String),
      parse (cleanJsonResponse content) = none →
      extractTransactionsFromContent parse content = []) := by
  constructor
  · intro parse body h
    have hb := cleanJsonResponse_of_no_fence body h
    have hj := cleanJsonResponse_fence_json body h
    have hn := cleanJsonResponse_fence_bare body h
    constructor
    · simp [extractTransactionsFromContent, hj, hb]
    · simp [extractTransactionsFromContent, hn, hb]
  · intro parse content hp
    simp [extractTransactionsFromContent, hp]

/-- C9 witness. -/
theorem claim_C9_witness :
    (extractTransactionsFromContent
        (fun s => if s = "[1]" then some [{ description := "Coffee" }] else none)
        ("```json\n" ++ "[1]" ++ "\n```") =
      extractTransactionsFromContent
        (fun s => if s = "[1]" then some [{ description := "Coffee" }] else none)
        "[1]" ∧
     extractTransactionsFromContent
        (fun s => if s = "[1]" then some [{ description := "Coffee" }] else none)
        ("```\n" ++ "[1]" ++ "\n```") =
      extractTransactionsFromContent
        (fun s => if s = "[1]" then some [{ description := "Coffee" }] else none)
        "[1]") ∧
    extractTransactionsFromContent
        (fun s => if s = "[1]" then some [{ description := "Coffee" }] else none)
        "not json" = [] :=
  ⟨claim_C9_flow_json_tolerance.1 _ "[1]" (by decide),
   claim_C9_flow_json_tolerance.2 _ "not json" (by decide)⟩
